import Mathlib

/-!
Shallow embedding of the workflow orchestrator in
src/examples-medium/multi_tool_orchestrator.py: the ToolOrchestrator class
(built-in workflow registry, execute_workflow with placeholder resolution)
and the create_custom_workflow branch of handle_call_tool.

Python dictionaries are modelled as association lists with Python dict
semantics: lookup returns the binding of a key, assignment replaces the
value in place when the key is present and appends otherwise, and
iteration follows insertion order.  The tool-execution callback
(execute_tool) is the external boundary; it is modelled as a function
parameter returning Except, so a raising callback is an Except.error.
The runner is instrumented with a trace listing every callback invocation
(tool name and resolved parameters) in order.
-/

namespace Orchestrator

/-- A JSON-like parameter or result value (string, number, boolean, null,
array), the dynamic values the Python code passes around. -/
inductive Value where
  | str (s : String)
  | num (n : Int)
  | bool (b : Bool)
  | null
  | list (elems : List Value)

/-- Python dict membership plus indexing: the value bound to a key, or none.
Association lists built by dictSet bind each key at most once, so the first
binding is the binding. -/
def lookup? {α : Type} : List (String × α) → String → Option α
  | [], _ => none
  | (k, v) :: rest, key => if k = key then some v else lookup? rest key

/-- Python dict assignment d[key] = v: replace the value in place when the
key is present (keeping its position), append the pair otherwise. -/
def dictSet {α : Type} : List (String × α) → String → α → List (String × α)
  | [], key, v => [(key, v)]
  | (k, w) :: rest, key, v =>
    if k = key then (k, v) :: rest else (k, w) :: dictSet rest key v

/-- One workflow step: a tool name and a parameter mapping
(source: the step dicts with keys "tool" and "params"). -/
structure Step where
  tool : String
  params : List (String × Value)

/-- Python str.startswith over code points. -/
def startswith (s pre : String) : Bool :=
  pre.data.isPrefixOf s.data

/-- Python str.endswith over code points. -/
def endswith (s suf : String) : Bool :=
  suf.data.isSuffixOf s.data

/-- The test the source applies to a parameter value:
isinstance(value, str) and value.startswith("\x7b") and value.endswith("\x7d"). -/
def isPlaceholderValue : Value → Bool
  | Value.str s => startswith s "\x7b" && endswith s "\x7d"
  | _ => false

/-- The identifier between the braces: value[1:-1] in the source. -/
def placeholderIdent (s : String) : String :=
  String.mk ((s.data.drop 1).dropLast)

/-- The body of the placeholder-resolution loop for one parameter value:
a placeholder-shaped string resolves from context first, then from results,
and is dropped (none) when the identifier is bound in neither; every other
value passes through verbatim. -/
def resolveParam (context results : List (String × Value)) (value : Value) :
    Option Value :=
  match value with
  | Value.str s =>
    if startswith s "\x7b" && endswith s "\x7d" then
      let param_name := placeholderIdent s
      match lookup? context param_name with
      | some v => some v
      | none => lookup? results param_name
    else some value
  | v => some v

/-- One iteration of the placeholder-resolution loop: assign the resolved
value when there is one, leave the params dict unchanged otherwise. -/
def resolveFold (context results : List (String × Value))
    (params : List (String × Value)) (kv : String × Value) :
    List (String × Value) :=
  match resolveParam context results kv.2 with
  | some v => dictSet params kv.1 v
  | none => params

/-- The placeholder-resolution loop of execute_workflow: build a fresh
params dict, assigning each resolvable parameter in iteration order and
skipping unresolvable placeholders. -/
def resolveParams (context results : List (String × Value))
    (ps : List (String × Value)) : List (String × Value) :=
  ps.foldl (resolveFold context results) []

/-- One recorded callback invocation: tool name and resolved parameters. -/
abbrev Call := String × List (String × Value)

/-- The step loop of execute_workflow: resolve each step, invoke the
callback, record the result under the tool name; stop at the first callback
failure.  Also returns the trace of callback invocations in order. -/
def runSteps {ε : Type} (exec : String → List (String × Value) → Except ε Value)
    (context : List (String × Value)) :
    List Step → List (String × Value) →
      List Call × Except ε (List (String × Value))
  | [], results => ([], Except.ok results)
  | step :: rest, results =>
    let params := resolveParams context results step.params
    match exec step.tool params with
    | Except.error e => ([(step.tool, params)], Except.error e)
    | Except.ok result =>
      let out := runSteps exec context rest (dictSet results step.tool result)
      ((step.tool, params) :: out.1, out.2)

/-- The two failure kinds of execute_workflow: the ValueError raised for an
unknown workflow name, and a propagated callback failure. -/
inductive WfError (ε : Type) where
  | unknownWorkflow (name : String)
  | toolFailure (e : ε)

/-- Body of execute_workflow after the registry lookup succeeded: run the
steps from an empty ResultSet, tagging a callback failure as toolFailure. -/
def runFound {ε : Type} (exec : String → List (String × Value) → Except ε Value)
    (context : List (String × Value)) (workflow : List Step) :
    List Call × Except (WfError ε) (List (String × Value)) :=
  let out := runSteps exec context workflow []
  (out.1,
    match out.2 with
    | Except.ok results => Except.ok results
    | Except.error e => Except.error (WfError.toolFailure e))

/-- ToolOrchestrator.execute_workflow: reject an unknown workflow name
before any step runs, otherwise run the registered steps. -/
def execute_workflow {ε : Type}
    (exec : String → List (String × Value) → Except ε Value)
    (workflows : List (String × List Step)) (workflow_name : String)
    (context : List (String × Value)) :
    List Call × Except (WfError ε) (List (String × Value)) :=
  match lookup? workflows workflow_name with
  | none => ([], Except.error (WfError.unknownWorkflow workflow_name))
  | some workflow => runFound exec context workflow

/-- The create_custom_workflow branch of handle_call_tool:
orchestrator.workflows[name] = steps, with no validation. -/
def register (workflows : List (String × List Step)) (name : String)
    (steps : List Step) : List (String × List Step) :=
  dictSet workflows name steps

/-- The built-in workflow registry from ToolOrchestrator.init. -/
def initialWorkflows : List (String × List Step) :=
  [("morning_briefing",
    [⟨"get_calendar_events", [("days", Value.num 1)]⟩,
     ⟨"check_github_notifications", []⟩,
     ⟨"get_weather", []⟩,
     ⟨"check_ci_status", [("repos", Value.list [Value.str "main-project"])]⟩]),
   ("deploy_checklist",
    [⟨"run_tests", [("suite", Value.str "all")]⟩,
     ⟨"check_code_coverage", [("threshold", Value.num 80)]⟩,
     ⟨"lint_code", []⟩,
     ⟨"check_dependencies", [("security", Value.bool true)]⟩,
     ⟨"generate_changelog", []⟩]),
   ("research_assistant",
    [⟨"search_arxiv", [("query", Value.str "\x7bquery\x7d"), ("limit", Value.num 5)]⟩,
     ⟨"summarize_papers", [("papers", Value.str "\x7barxiv_results\x7d")]⟩,
     ⟨"find_implementations", [("papers", Value.str "\x7barxiv_results\x7d")]⟩,
     ⟨"create_reading_list", [("summaries", Value.str "\x7bsummaries\x7d")]⟩])]

/-- Replay of a callback-invocation trace: the ResultSet accumulated after
the last recorded invocation completes, or none if a recorded invocation
fails. -/
def accumFromTrace {ε : Type}
    (exec : String → List (String × Value) → Except ε Value) :
    List Call → List (String × Value) → Option (List (String × Value))
  | [], results => some results
  | c :: rest, results =>
    match exec c.1 c.2 with
    | Except.ok v => accumFromTrace exec rest (dictSet results c.1 v)
    | Except.error _ => none

/-- State-threaded form of the step loop, making the ambient mutable
environment explicit: env carries the workflow registry (self.workflows)
and the caller-supplied context dict; every source-level read or write of
either would act on env, and the source only reads, so env is threaded
through each step. -/
def runStepsSt {ε : Type} (exec : String → List (String × Value) → Except ε Value) :
    List Step → List (String × List Step) × List (String × Value) →
      List (String × Value) →
      (List (String × List Step) × List (String × Value)) ×
        Except ε (List (String × Value))
  | [], env, results => (env, Except.ok results)
  | step :: rest, env, results =>
    let params := resolveParams env.2 results step.params
    match exec step.tool params with
    | Except.error e => (env, Except.error e)
    | Except.ok result => runStepsSt exec rest env (dictSet results step.tool result)

/-- State-threaded form of execute_workflow over the explicit environment
(workflow registry, caller context). -/
def execute_workflowSt {ε : Type}
    (exec : String → List (String × Value) → Except ε Value)
    (env : List (String × List Step) × List (String × Value))
    (workflow_name : String) :
    (List (String × List Step) × List (String × Value)) ×
      Except (WfError ε) (List (String × Value)) :=
  match lookup? env.1 workflow_name with
  | none => (env, Except.error (WfError.unknownWorkflow workflow_name))
  | some workflow =>
    match runStepsSt exec workflow env [] with
    | (env2, Except.ok results) => (env2, Except.ok results)
    | (env2, Except.error e) => (env2, Except.error (WfError.toolFailure e))

/-- Demonstration callback that succeeds on every tool, echoing the tool
name, in the shape of the fallback branch of execute_tool. -/
def execDemo : String → List (String × Value) → Except String Value :=
  fun tool_name _params => Except.ok (Value.str ("Executed " ++ tool_name))

/-! Association-list lemmas: Python dict assignment versus lookup. -/

theorem lookup?_dictSet_self {α : Type} (m : List (String × α)) (k : String) (v : α) :
    lookup? (dictSet m k v) k = some v := by
  induction m with
  | nil => simp [dictSet, lookup?]
  | cons p rest ih =>
    obtain ⟨k1, w⟩ := p
    by_cases h : k1 = k
    · simp [dictSet, h, lookup?]
    · simp [dictSet, h, lookup?, ih]

theorem lookup?_dictSet_ne {α : Type} (m : List (String × α)) (k key : String) (v : α)
    (h : k ≠ key) : lookup? (dictSet m key v) k = lookup? m k := by
  have h2 : key ≠ k := Ne.symm h
  induction m with
  | nil => simp [dictSet, lookup?, h2]
  | cons p rest ih =>
    obtain ⟨k1, w⟩ := p
    by_cases hk : k1 = key
    · subst hk
      simp [dictSet, lookup?, h2]
    · simp [dictSet, hk, lookup?, ih]

theorem mem_keys_dictSet {α : Type} (m : List (String × α)) (key a : String) (v : α) :
    a ∈ (dictSet m key v).map Prod.fst ↔ a ∈ m.map Prod.fst ∨ a = key := by
  induction m with
  | nil => simp [dictSet]
  | cons p rest ih =>
    obtain ⟨k1, w⟩ := p
    by_cases h : k1 = key
    · subst h
      simp [dictSet]
      tauto
    · simp [dictSet, h, ih]
      tauto

theorem nodupKeys_dictSet {α : Type} (m : List (String × α)) (key : String) (v : α)
    (h : (m.map Prod.fst).Nodup) : ((dictSet m key v).map Prod.fst).Nodup := by
  induction m with
  | nil => simp [dictSet]
  | cons p rest ih =>
    obtain ⟨k1, w⟩ := p
    simp only [List.map_cons, List.nodup_cons] at h
    by_cases hk : k1 = key
    · subst hk
      simpa [dictSet] using h
    · simp only [dictSet, hk, if_false, List.map_cons, List.nodup_cons]
      refine ⟨?_, ih h.2⟩
      intro hmem
      rcases (mem_keys_dictSet rest key k1 v).mp hmem with h1 | h1
      · exact h.1 h1
      · exact hk h1

theorem lookup?_eq_none_iff {α : Type} (m : List (String × α)) (k : String) :
    lookup? m k = none ↔ k ∉ m.map Prod.fst := by
  induction m with
  | nil => simp [lookup?]
  | cons p rest ih =>
    obtain ⟨k1, w⟩ := p
    by_cases h : k1 = k
    · subst h
      simp [lookup?]
    · have h2 : ¬k = k1 := fun hh => h hh.symm
      simp only [lookup?, if_neg h, List.map_cons, List.mem_cons, not_or, ih]
      tauto

/-! Placeholder-resolution lemmas: what the resolved params dict binds. -/

theorem lookup?_foldl_resolveFold_not_mem (context results : List (String × Value))
    (ps acc : List (String × Value)) (k : String) (h : k ∉ ps.map Prod.fst) :
    lookup? (ps.foldl (resolveFold context results) acc) k = lookup? acc k := by
  induction ps generalizing acc with
  | nil => simp
  | cons kv rest ih =>
    simp only [List.map_cons, List.mem_cons, not_or] at h
    rw [List.foldl_cons, ih _ h.2]
    unfold resolveFold
    cases resolveParam context results kv.2 with
    | none => rfl
    | some v => exact lookup?_dictSet_ne _ _ _ _ h.1

theorem lookup?_foldl_resolveFold (context results : List (String × Value))
    (ps acc : List (String × Value)) (k : String)
    (h : (ps.map Prod.fst).Nodup) :
    lookup? (ps.foldl (resolveFold context results) acc) k =
      match lookup? ps k with
      | some v =>
        match resolveParam context results v with
        | some w => some w
        | none => lookup? acc k
      | none => lookup? acc k := by
  induction ps generalizing acc with
  | nil => simp [lookup?]
  | cons kv rest ih =>
    obtain ⟨k1, v1⟩ := kv
    simp only [List.map_cons, List.nodup_cons] at h
    rw [List.foldl_cons]
    by_cases hk : k1 = k
    · subst hk
      rw [lookup?_foldl_resolveFold_not_mem _ _ _ _ _ h.1]
      have hsc : lookup? ((k1, v1) :: rest) k1 = some v1 := by simp [lookup?]
      rw [hsc]
      cases hres : resolveParam context results v1 with
      | some w => simp [resolveFold, hres, lookup?_dictSet_self]
      | none => simp [resolveFold, hres]
    · have hacc : lookup? (resolveFold context results acc (k1, v1)) k = lookup? acc k := by
        unfold resolveFold
        cases resolveParam context results v1 with
        | none => rfl
        | some w => exact lookup?_dictSet_ne _ _ _ _ (fun hh => hk hh.symm)
      rw [ih _ h.2, hacc]
      have hcons : lookup? ((k1, v1) :: rest) k = lookup? rest k := by
        simp [lookup?, hk]
      rw [hcons]

theorem lookup?_resolveParams (context results ps : List (String × Value)) (k : String)
    (h : (ps.map Prod.fst).Nodup) :
    lookup? (resolveParams context results ps) k =
      (lookup? ps k).bind (resolveParam context results) := by
  unfold resolveParams
  rw [lookup?_foldl_resolveFold _ _ _ _ _ h]
  cases lookup? ps k with
  | none => rfl
  | some v =>
    cases hres : resolveParam context results v with
    | none => simp [hres, lookup?]
    | some w => simp [hres]

/-! Step-loop lemmas. -/

theorem runSteps_ok_spec {ε : Type} (exec : String → List (String × Value) → Except ε Value)
    (context : List (String × Value)) (steps : List Step)
    (acc : List (String × Value)) (tr : List Call) (R : List (String × Value))
    (h : runSteps exec context steps acc = (tr, Except.ok R)) :
    tr.map Prod.fst = steps.map Step.tool ∧ accumFromTrace exec tr acc = some R := by
  induction steps generalizing acc tr with
  | nil =>
    simp only [runSteps, Prod.mk.injEq, Except.ok.injEq] at h
    obtain ⟨rfl, rfl⟩ := h
    simp [accumFromTrace]
  | cons s rest ih =>
    simp only [runSteps] at h
    cases hx : exec s.tool (resolveParams context acc s.params) with
    | error e =>
      rw [hx] at h
      simp at h
    | ok v =>
      simp only [hx] at h
      rcases hrest : runSteps exec context rest (dictSet acc s.tool v) with ⟨tr2, res2⟩
      rw [hrest] at h
      simp only [Prod.mk.injEq] at h
      obtain ⟨rfl, rfl⟩ := h
      obtain ⟨h1, h2⟩ := ih _ _ hrest
      refine ⟨by simp [h1], ?_⟩
      simp only [accumFromTrace, hx]
      exact h2

theorem runSteps_append_ok {ε : Type} (exec : String → List (String × Value) → Except ε Value)
    (context : List (String × Value)) (pre rest : List Step)
    (acc : List (String × Value)) (tr0 : List Call) (R0 : List (String × Value))
    (h : runSteps exec context pre acc = (tr0, Except.ok R0)) :
    runSteps exec context (pre ++ rest) acc =
      (tr0 ++ (runSteps exec context rest R0).1, (runSteps exec context rest R0).2) := by
  induction pre generalizing acc tr0 with
  | nil =>
    simp only [runSteps, Prod.mk.injEq, Except.ok.injEq] at h
    obtain ⟨rfl, rfl⟩ := h
    simp
  | cons s pre ih =>
    rw [List.cons_append]
    simp only [runSteps] at h ⊢
    cases hx : exec s.tool (resolveParams context acc s.params) with
    | error e =>
      rw [hx] at h
      simp at h
    | ok v =>
      simp only [hx] at h ⊢
      rcases hpre : runSteps exec context pre (dictSet acc s.tool v) with ⟨tr1, res1⟩
      rw [hpre] at h
      simp only [Prod.mk.injEq] at h
      obtain ⟨rfl, rfl⟩ := h
      rw [ih _ _ hpre]
      simp

theorem runSteps_prefix_ok {ε : Type} (exec : String → List (String × Value) → Except ε Value)
    (context : List (String × Value)) (pre rest : List Step)
    (acc : List (String × Value)) (tr : List Call) (R : List (String × Value))
    (h : runSteps exec context (pre ++ rest) acc = (tr, Except.ok R)) :
    ∃ tr0 R0, runSteps exec context pre acc = (tr0, Except.ok R0) := by
  induction pre generalizing acc tr with
  | nil => exact ⟨[], acc, by simp [runSteps]⟩
  | cons s pre ih =>
    rw [List.cons_append] at h
    simp only [runSteps] at h ⊢
    cases hx : exec s.tool (resolveParams context acc s.params) with
    | error e =>
      rw [hx] at h
      simp at h
    | ok v =>
      simp only [hx] at h
      rcases hr : runSteps exec context (pre ++ rest) (dictSet acc s.tool v) with ⟨tr2, res2⟩
      rw [hr] at h
      simp only [Prod.mk.injEq] at h
      obtain ⟨rfl, rfl⟩ := h
      obtain ⟨tr0, R0, hpre⟩ := ih _ _ hr
      refine ⟨(s.tool, resolveParams context acc s.params) :: tr0, R0, ?_⟩
      simp [hx, hpre]

theorem runSteps_lookup_no_tool {ε : Type} (exec : String → List (String × Value) → Except ε Value)
    (context : List (String × Value)) (steps : List Step)
    (acc : List (String × Value)) (tr : List Call) (R : List (String × Value)) (t : String)
    (h : runSteps exec context steps acc = (tr, Except.ok R))
    (ht : ∀ s ∈ steps, s.tool ≠ t) :
    lookup? R t = lookup? acc t := by
  induction steps generalizing acc tr with
  | nil =>
    simp only [runSteps, Prod.mk.injEq, Except.ok.injEq] at h
    obtain ⟨rfl, rfl⟩ := h
    rfl
  | cons s rest ih =>
    simp only [runSteps] at h
    cases hx : exec s.tool (resolveParams context acc s.params) with
    | error e =>
      rw [hx] at h
      simp at h
    | ok v =>
      simp only [hx] at h
      rcases hr : runSteps exec context rest (dictSet acc s.tool v) with ⟨tr2, res2⟩
      rw [hr] at h
      simp only [Prod.mk.injEq] at h
      obtain ⟨rfl, rfl⟩ := h
      have hrest := ih _ _ hr (fun s2 hs2 => ht s2 (List.mem_cons_of_mem _ hs2))
      rw [hrest, lookup?_dictSet_ne _ _ _ _ (Ne.symm (ht s (List.mem_cons_self _ _)))]

theorem runSteps_nodupKeys {ε : Type} (exec : String → List (String × Value) → Except ε Value)
    (context : List (String × Value)) (steps : List Step)
    (acc : List (String × Value)) (tr : List Call) (R : List (String × Value))
    (h : runSteps exec context steps acc = (tr, Except.ok R))
    (hacc : (acc.map Prod.fst).Nodup) : (R.map Prod.fst).Nodup := by
  induction steps generalizing acc tr with
  | nil =>
    simp only [runSteps, Prod.mk.injEq, Except.ok.injEq] at h
    obtain ⟨rfl, rfl⟩ := h
    exact hacc
  | cons s rest ih =>
    simp only [runSteps] at h
    cases hx : exec s.tool (resolveParams context acc s.params) with
    | error e =>
      rw [hx] at h
      simp at h
    | ok v =>
      simp only [hx] at h
      rcases hr : runSteps exec context rest (dictSet acc s.tool v) with ⟨tr2, res2⟩
      rw [hr] at h
      simp only [Prod.mk.injEq] at h
      obtain ⟨rfl, rfl⟩ := h
      exact ih _ _ hr (nodupKeys_dictSet _ _ _ hacc)

theorem runStepsSt_eq {ε : Type} (exec : String → List (String × Value) → Except ε Value)
    (steps : List Step) (env : List (String × List Step) × List (String × Value))
    (results : List (String × Value)) :
    runStepsSt exec steps env results = (env, (runSteps exec env.2 steps results).2) := by
  induction steps generalizing results with
  | nil => simp [runStepsSt, runSteps]
  | cons s rest ih =>
    simp only [runStepsSt, runSteps]
    cases hx : exec s.tool (resolveParams env.2 results s.params) with
    | error e => simp [hx]
    | ok v => simp [hx, ih]

/-- Callback that echoes the value bound to parameter "i", for exercising
result threading on concrete workflows. -/
def execEcho : String → List (String × Value) → Except String Value :=
  fun _tool ps =>
    Except.ok (match lookup? ps "i" with | some v => v | none => Value.null)

/-- Callback that fails on the tool lint_code and succeeds elsewhere,
echoing the tool name. -/
def execFailLint : String → List (String × Value) → Except String Value :=
  fun tool _ps =>
    if tool = "lint_code" then Except.error "lint failed"
    else Except.ok (Value.str tool)

/-! Claim theorems. -/

/-- C1: For every registered workflow and every context, a successful run
invokes the tool-execution callback exactly once per step, in the order the
steps appear in the workflow definition (the trace of invocations lists
exactly the step tools in order), and returns the ResultSet accumulated
from those invocations after the last step completes. -/
theorem run_success_invokes_each_step_in_order {ε : Type}
    (exec : String → List (String × Value) → Except ε Value)
    (workflows : List (String × List Step)) (workflow_name : String)
    (context : List (String × Value)) (steps : List Step)
    (tr : List Call) (R : List (String × Value))
    (hname : lookup? workflows workflow_name = some steps)
    (hrun : execute_workflow exec workflows workflow_name context = (tr, Except.ok R)) :
    tr.map Prod.fst = steps.map Step.tool ∧ accumFromTrace exec tr [] = some R := by
  unfold execute_workflow at hrun
  rw [hname] at hrun
  simp only [runFound] at hrun
  rcases hrs : runSteps exec context steps [] with ⟨tr2, res2⟩
  rw [hrs] at hrun
  cases res2 with
  | error e => simp at hrun
  | ok R2 =>
    simp only [Prod.mk.injEq, Except.ok.injEq] at hrun
    obtain ⟨rfl, rfl⟩ := hrun
    exact runSteps_ok_spec exec context steps [] tr2 R2 hrs

/-- Witness for C1: the built-in morning_briefing workflow with the
demonstration callback runs all four steps in order. -/
theorem run_success_invokes_each_step_in_order_witness :
    (execute_workflow execDemo initialWorkflows "morning_briefing" []).1.map Prod.fst =
        ["get_calendar_events", "check_github_notifications", "get_weather",
         "check_ci_status"] ∧
      accumFromTrace execDemo
          (execute_workflow execDemo initialWorkflows "morning_briefing" []).1 [] =
        some [("get_calendar_events", Value.str "Executed get_calendar_events"),
              ("check_github_notifications",
                Value.str "Executed check_github_notifications"),
              ("get_weather", Value.str "Executed get_weather"),
              ("check_ci_status", Value.str "Executed check_ci_status")] := by
  have h := run_success_invokes_each_step_in_order execDemo initialWorkflows
    "morning_briefing" [] _ _ _ rfl rfl
  exact ⟨h.1.trans rfl, h.2.trans rfl⟩

/-- C2: A step parameter whose value is a placeholder string is resolved by
looking the extracted identifier up first in the caller-supplied context
and, only if absent there, in the current ResultSet; the value found is
bound verbatim (never re-resolved, even when it is itself a string of
placeholder shape), and the resolved params dict is exactly what the step
loop hands to the callback. -/
theorem placeholder_resolves_context_first_verbatim
    (context results ps : List (String × Value)) (key s : String)
    (hnodup : (ps.map Prod.fst).Nodup)
    (hkey : lookup? ps key = some (Value.str s))
    (h1 : startswith s "\x7b" = true) (h2 : endswith s "\x7d" = true) :
    (lookup? (resolveParams context results ps) key =
      match lookup? context (placeholderIdent s) with
      | some v => some v
      | none => lookup? results (placeholderIdent s)) ∧
    ∀ (ε : Type) (exec : String → List (String × Value) → Except ε Value)
      (tool : String) (rest : List Step),
      (runSteps exec context ((⟨tool, ps⟩ : Step) :: rest) results).1.head? =
        some (tool, resolveParams context results ps) := by
  constructor
  · rw [lookup?_resolveParams _ _ _ _ hnodup, hkey]
    simp only [Option.some_bind]
    unfold resolveParam
    simp [h1, h2]
  · intro ε exec tool rest
    simp only [runSteps]
    cases exec tool (resolveParams context results ps) <;> simp

/-- Witness for C2: the identifier papers is bound in both context and
ResultSet; the context binding wins and is passed through verbatim even
though it is itself placeholder-shaped. -/
theorem placeholder_resolves_context_first_verbatim_witness :
    (lookup? (resolveParams [("papers", Value.str "\x7bnested\x7d")]
        [("papers", Value.num 3)] [("k", Value.str "\x7bpapers\x7d")]) "k" =
      some (Value.str "\x7bnested\x7d")) ∧
    (runSteps execDemo [("papers", Value.str "\x7bnested\x7d")]
        [⟨"summarize_papers", [("k", Value.str "\x7bpapers\x7d")]⟩]
        [("papers", Value.num 3)]).1.head? =
      some ("summarize_papers", [("k", Value.str "\x7bnested\x7d")]) := by
  have h := placeholder_resolves_context_first_verbatim
    [("papers", Value.str "\x7bnested\x7d")] [("papers", Value.num 3)]
    [("k", Value.str "\x7bpapers\x7d")] "k" "\x7bpapers\x7d"
    (by decide) rfl rfl rfl
  exact ⟨h.1.trans rfl, (h.2 String execDemo "summarize_papers" []).trans rfl⟩

/-- C3: Running a name absent from the workflow registry fails with the
unknown-workflow error naming that workflow, and the callback is invoked
zero times (the trace is empty). -/
theorem unknown_workflow_fails_before_any_step {ε : Type}
    (exec : String → List (String × Value) → Except ε Value)
    (workflows : List (String × List Step)) (workflow_name : String)
    (context : List (String × Value))
    (hname : lookup? workflows workflow_name = none) :
    execute_workflow exec workflows workflow_name context =
      ([], Except.error (WfError.unknownWorkflow workflow_name)) := by
  unfold execute_workflow
  rw [hname]

/-- Witness for C3 at an unregistered name against the built-in registry. -/
theorem unknown_workflow_fails_before_any_step_witness :
    lookup? initialWorkflows "no_such" = none ∧
      execute_workflow execDemo initialWorkflows "no_such" [] =
        ([], Except.error (WfError.unknownWorkflow "no_such")) :=
  ⟨rfl, unknown_workflow_fails_before_any_step execDemo initialWorkflows "no_such" [] rfl⟩

/-- C4: When the callback fails at a step, that failure propagates
unchanged as the run result, the callback is never invoked for the later
steps (the trace ends at the failing step), and the partially built
ResultSet is discarded rather than returned. -/
theorem tool_failure_propagates_aborts_discards {ε : Type}
    (exec : String → List (String × Value) → Except ε Value)
    (workflows : List (String × List Step)) (workflow_name : String)
    (context : List (String × Value))
    (pre : List Step) (s : Step) (post : List Step)
    (tr0 : List Call) (R0 : List (String × Value)) (e : ε)
    (hname : lookup? workflows workflow_name = some (pre ++ s :: post))
    (hpre : runSteps exec context pre [] = (tr0, Except.ok R0))
    (hfail : exec s.tool (resolveParams context R0 s.params) = Except.error e) :
    execute_workflow exec workflows workflow_name context =
      (tr0 ++ [(s.tool, resolveParams context R0 s.params)],
       Except.error (WfError.toolFailure e)) := by
  unfold execute_workflow
  rw [hname]
  simp only [runFound]
  rw [runSteps_append_ok exec context pre (s :: post) [] tr0 R0 hpre]
  simp [runSteps, hfail]

/-- Witness for C4: a callback failing at lint_code, the third of five
deploy_checklist steps, aborts the run with that failure after exactly
three invocations. -/
theorem tool_failure_propagates_aborts_discards_witness :
    execute_workflow execFailLint initialWorkflows "deploy_checklist" [] =
      ([("run_tests", [("suite", Value.str "all")]),
        ("check_code_coverage", [("threshold", Value.num 80)]),
        ("lint_code", [])],
       Except.error (WfError.toolFailure "lint failed")) := by
  have h := tool_failure_propagates_aborts_discards execFailLint initialWorkflows
    "deploy_checklist" []
    [⟨"run_tests", [("suite", Value.str "all")]⟩,
     ⟨"check_code_coverage", [("threshold", Value.num 80)]⟩]
    ⟨"lint_code", []⟩
    [⟨"check_dependencies", [("security", Value.bool true)]⟩,
     ⟨"generate_changelog", []⟩]
    [("run_tests", [("suite", Value.str "all")]),
     ("check_code_coverage", [("threshold", Value.num 80)])]
    [("run_tests", Value.str "run_tests"),
     ("check_code_coverage", Value.str "check_code_coverage")]
    "lint failed" rfl rfl rfl
  exact h.trans rfl

/-- C5: A placeholder parameter whose identifier is bound in neither the
context nor the current ResultSet is silently dropped: the resolved params
dict contains no entry for that parameter name at all, and resolution
still succeeds. -/
theorem unresolvable_placeholder_key_omitted
    (context results ps : List (String × Value)) (key s : String)
    (hnodup : (ps.map Prod.fst).Nodup)
    (hkey : lookup? ps key = some (Value.str s))
    (h1 : startswith s "\x7b" = true) (h2 : endswith s "\x7d" = true)
    (hc : lookup? context (placeholderIdent s) = none)
    (hr : lookup? results (placeholderIdent s) = none) :
    lookup? (resolveParams context results ps) key = none ∧
      key ∉ (resolveParams context results ps).map Prod.fst := by
  have hl : lookup? (resolveParams context results ps) key = none := by
    rw [lookup?_resolveParams _ _ _ _ hnodup, hkey]
    simp only [Option.some_bind]
    unfold resolveParam
    simp [h1, h2, hc, hr]
  exact ⟨hl, (lookup?_eq_none_iff _ _).mp hl⟩

/-- Witness for C5: the placeholder arxiv_results is bound in neither the
context nor the ResultSet, so its key is absent from the resolved params. -/
theorem unresolvable_placeholder_key_omitted_witness :
    lookup? (resolveParams [] [("search_arxiv", Value.num 1)]
        [("papers", Value.str "\x7barxiv_results\x7d")]) "papers" = none ∧
      "papers" ∉ (resolveParams [] [("search_arxiv", Value.num 1)]
        [("papers", Value.str "\x7barxiv_results\x7d")]).map Prod.fst :=
  unresolvable_placeholder_key_omitted [] [("search_arxiv", Value.num 1)]
    [("papers", Value.str "\x7barxiv_results\x7d")] "papers" "\x7barxiv_results\x7d"
    (by decide) rfl rfl rfl rfl rfl

/-- C6: When two steps of a successfully run workflow invoke the same tool
name and no later step invokes it again, the returned ResultSet holds a
single entry for that tool name, and its value is the return value of the
later of the two invocations. -/
theorem duplicate_tool_last_write_wins {ε : Type}
    (exec : String → List (String × Value) → Except ε Value)
    (workflows : List (String × List Step)) (workflow_name : String)
    (context : List (String × Value))
    (pre : List Step) (s2 : Step) (post : List Step) (t : String)
    (tr : List Call) (R : List (String × Value))
    (hname : lookup? workflows workflow_name = some (pre ++ s2 :: post))
    (hrun : execute_workflow exec workflows workflow_name context = (tr, Except.ok R))
    (ht2 : s2.tool = t)
    (_hearlier : t ∈ pre.map Step.tool)
    (hpost : ∀ s3 ∈ post, s3.tool ≠ t) :
    (R.map Prod.fst).count t = 1 ∧
      ∃ tr0 R0 v, runSteps exec context pre [] = (tr0, Except.ok R0) ∧
        exec t (resolveParams context R0 s2.params) = Except.ok v ∧
        lookup? R t = some v := by
  unfold execute_workflow at hrun
  rw [hname] at hrun
  simp only [runFound] at hrun
  rcases hall : runSteps exec context (pre ++ s2 :: post) [] with ⟨trA, resA⟩
  rw [hall] at hrun
  cases resA with
  | error e => simp at hrun
  | ok RA =>
    simp only [Prod.mk.injEq, Except.ok.injEq] at hrun
    obtain ⟨rfl, rfl⟩ := hrun
    obtain ⟨tr0, R0, hpre⟩ := runSteps_prefix_ok exec context pre (s2 :: post) [] trA RA hall
    have hall0 := hall
    rw [runSteps_append_ok exec context pre (s2 :: post) [] tr0 R0 hpre] at hall
    simp only [runSteps] at hall
    cases hx : exec s2.tool (resolveParams context R0 s2.params) with
    | error e => simp [hx] at hall
    | ok v =>
      simp only [hx] at hall
      rcases hY : runSteps exec context post (dictSet R0 s2.tool v) with ⟨tr1, res1⟩
      rw [hY] at hall
      simp only [Prod.mk.injEq] at hall
      obtain ⟨-, hres⟩ := hall
      rw [hres] at hY
      have hlook : lookup? RA t = some v := by
        rw [runSteps_lookup_no_tool exec context post (dictSet R0 s2.tool v) tr1 RA t hY hpost,
          ht2, lookup?_dictSet_self]
      have hnd : (RA.map Prod.fst).Nodup :=
        runSteps_nodupKeys exec context (pre ++ s2 :: post) [] trA RA hall0 (by simp)
      have hmem : t ∈ RA.map Prod.fst := by
        by_contra hnm
        rw [(lookup?_eq_none_iff RA t).mpr hnm] at hlook
        exact Option.noConfusion hlook
      exact ⟨List.count_eq_one_of_mem hnd hmem,
        tr0, R0, v, hpre, by rw [← ht2]; exact hx, hlook⟩

/-- Witness for C6: a registered workflow invoking tool A twice with
different parameters; the ResultSet holds one entry for A, the value of
the second invocation. -/
theorem duplicate_tool_last_write_wins_witness :
    (([("A", Value.num 2)] : List (String × Value)).map Prod.fst).count "A" = 1 ∧
      ∃ tr0 R0 v,
        runSteps execEcho [] [⟨"A", [("i", Value.num 1)]⟩] [] = (tr0, Except.ok R0) ∧
        execEcho "A" (resolveParams [] R0 [("i", Value.num 2)]) = Except.ok v ∧
        lookup? [("A", Value.num 2)] "A" = some v :=
  duplicate_tool_last_write_wins execEcho
    (register initialWorkflows "dup"
      [⟨"A", [("i", Value.num 1)]⟩, ⟨"A", [("i", Value.num 2)]⟩])
    "dup" [] [⟨"A", [("i", Value.num 1)]⟩] ⟨"A", [("i", Value.num 2)]⟩ [] "A"
    [("A", [("i", Value.num 1)]), ("A", [("i", Value.num 2)])] [("A", Value.num 2)]
    rfl rfl rfl (by decide) (by simp)

/-- C7: A step parameter whose value is not a string, or is a string that
does not both start with an opening brace and end with a closing brace, is
bound in the resolved params dict unchanged, as a literal. -/
theorem literal_param_passed_unchanged
    (context results ps : List (String × Value)) (key : String) (v : Value)
    (hnodup : (ps.map Prod.fst).Nodup)
    (hkey : lookup? ps key = some v)
    (hlit : isPlaceholderValue v = false) :
    lookup? (resolveParams context results ps) key = some v := by
  rw [lookup?_resolveParams _ _ _ _ hnodup, hkey]
  simp only [Option.some_bind]
  cases v with
  | str s =>
    simp only [isPlaceholderValue] at hlit
    simp [resolveParam, hlit]
  | num n => rfl
  | bool b => rfl
  | null => rfl
  | list es => rfl

/-- Witness for C7: the literal string all and the literal number 1 are not
placeholder-shaped; the string binding is passed through unchanged. -/
theorem literal_param_passed_unchanged_witness :
    lookup? (resolveParams [("suite", Value.num 9)] [("suite", Value.num 8)]
        [("suite", Value.str "all"), ("days", Value.num 1)]) "suite" =
      some (Value.str "all") :=
  literal_param_passed_unchanged [("suite", Value.num 9)] [("suite", Value.num 8)]
    [("suite", Value.str "all"), ("days", Value.num 1)] "suite" (Value.str "all")
    (by decide) rfl rfl

/-- C8: register stores the steps under the name with no validation, and
registering an already-present name fully replaces the prior sequence: a
subsequent run of that name looks up exactly the new steps and executes
only them. -/
theorem register_stores_and_replaces {ε : Type}
    (exec : String → List (String × Value) → Except ε Value)
    (workflows : List (String × List Step)) (name : String) (steps : List Step)
    (context : List (String × Value)) :
    lookup? (register workflows name steps) name = some steps ∧
      execute_workflow exec (register workflows name steps) name context =
        runFound exec context steps := by
  have hl : lookup? (register workflows name steps) name = some steps :=
    lookup?_dictSet_self workflows name steps
  refine ⟨hl, ?_⟩
  unfold execute_workflow
  rw [hl]

/-- C9: A run, successful or failed, leaves the explicit environment (the
workflow registry and the caller-supplied context) unchanged, and its
outcome agrees with the plain runner: the registry and the context are
read, never written. -/
theorem run_preserves_registry_and_context {ε : Type}
    (exec : String → List (String × Value) → Except ε Value)
    (env : List (String × List Step) × List (String × Value))
    (workflow_name : String) :
    (execute_workflowSt exec env workflow_name).1 = env ∧
      (execute_workflowSt exec env workflow_name).2 =
        (execute_workflow exec env.1 workflow_name env.2).2 := by
  unfold execute_workflowSt execute_workflow
  cases hname : lookup? env.1 workflow_name with
  | none => exact ⟨rfl, rfl⟩
  | some workflow =>
    dsimp only
    rw [runStepsSt_eq]
    simp only [runFound]
    cases hr : (runSteps exec env.2 workflow []).2 with
    | ok results => simp
    | error e => simp

/-- C10: The two-character brace string is treated as a placeholder whose
identifier is the empty string: it resolves to the value bound to the
empty-string key in the context or the ResultSet when one exists, and is
silently dropped otherwise; it is never passed through as a literal. -/
theorem empty_braces_is_empty_identifier_placeholder
    (context results ps : List (String × Value)) (key : String)
    (hnodup : (ps.map Prod.fst).Nodup)
    (hkey : lookup? ps key = some (Value.str "\x7b\x7d")) :
    lookup? (resolveParams context results ps) key =
      match lookup? context "" with
      | some v => some v
      | none => lookup? results "" := by
  rw [lookup?_resolveParams _ _ _ _ hnodup, hkey]
  rfl

/-- Witness for C10: the brace pair resolves to the value bound to the
empty-string key in the context, not to the literal brace string. -/
theorem empty_braces_is_empty_identifier_placeholder_witness :
    lookup? (resolveParams [("", Value.num 7)] []
        [("k", Value.str "\x7b\x7d")]) "k" = some (Value.num 7) :=
  (empty_braces_is_empty_identifier_placeholder [("", Value.num 7)] []
    [("k", Value.str "\x7b\x7d")] "k" (by decide) rfl).trans rfl

end Orchestrator
